import Mathlib

/-!
Verification of the legacy-descriptor bridge (`descriptor` package).

The development shallowly embeds `descriptor.go`: the proto tree types
(`descriptorpb`), the reflective descriptor chain, the two identity-keyed
caches (threaded explicitly as state), and the public operations
`EnumRawDescriptor`, `MessageRawDescriptor`, `EnumDescriptorProto`,
`MessageDescriptorProto`, `ForMessage`.  The external serialization and
compression libraries (proto marshal/unmarshal, gzip) are not part of the
repository; they are modelled from the spec as deterministic executable
functions with an executable partial inverse.
-/

namespace descriptorpb

/-- Type `descriptorpb.EnumDescriptorProto`: an enum declaration (only the name is
relevant to the bridge). -/
structure EnumDescriptorProto where
  name : String
deriving DecidableEq, Repr

mutual

/-- Type `descriptorpb.DescriptorProto`: a message declaration with its nested
messages (`NestedType`) and nested enums (`EnumType`).  A dedicated list type
keeps all recursion structural. -/
inductive DescriptorProto where
  | mk (name : String) (nestedType : DescriptorProtoList) (enumType : List EnumDescriptorProto)

/-- A list of message declarations (a `NestedType` / `MessageType` slice). -/
inductive DescriptorProtoList where
  | nil
  | cons (head : DescriptorProto) (tail : DescriptorProtoList)

end

/-- The `Name` field of a message declaration. -/
def DescriptorProto.name : DescriptorProto → String
  | .mk n _ _ => n

/-- The `NestedType` field of a message declaration. -/
def DescriptorProto.nestedType : DescriptorProto → DescriptorProtoList
  | .mk _ ns _ => ns

/-- The `EnumType` field of a message declaration. -/
def DescriptorProto.enumType : DescriptorProto → List EnumDescriptorProto
  | .mk _ _ es => es

/-- Indexing into a declaration list (`l[i]`), `none` when out of range. -/
def DescriptorProtoList.get? : DescriptorProtoList → Nat → Option DescriptorProto
  | .nil, _ => none
  | .cons d _, 0 => some d
  | .cons _ ds, n + 1 => ds.get? n

/-- Number of declarations in the list. -/
def DescriptorProtoList.length : DescriptorProtoList → Nat
  | .nil => 0
  | .cons _ ds => ds.length + 1

/-- Type `descriptorpb.FileDescriptorProto`: the root tree of one schema file. -/
structure FileDescriptorProto where
  name : String
  messageType : DescriptorProtoList
  enumType : List EnumDescriptorProto

end descriptorpb

open descriptorpb (FileDescriptorProto DescriptorProto DescriptorProtoList)

/-!
## Byte blobs

Go byte slices carry both content and identity (`&b[0]` is used as a cache
key).  A `Buffer` is a non-nil slice: content plus an identity tag.  A
possibly-nil `[]byte` is an `Option Buffer`; a possibly-nil `[]int` is an
`Option (List Nat)`.
-/

/-- A non-nil byte slice: its backing-array identity and its content. -/
structure Buffer where
  id : Nat
  data : List Nat
deriving DecidableEq, Repr

/-!
## Serialization model

`proto.Marshal` / `proto.Unmarshal` and gzip live outside this repository.
Modelled from the spec: serialization is a deterministic injective encoding
of the root tree into bytes, decoding is its executable partial inverse, and
decoding rejects byte lists that are not an encoding.
-/

/-- Modelled from the spec: length-prefixed encoding of a string. -/
def encString (s : String) : List Nat :=
  s.toList.length :: s.toList.map Char.toNat

/-- Modelled from the spec: decode a length-prefixed string, returning the
remaining bytes. -/
def parseString : List Nat → Option (String × List Nat)
  | [] => none
  | n :: rest =>
    if n ≤ rest.length then
      some (String.mk ((rest.take n).map Char.ofNat), rest.drop n)
    else none

/-- Modelled from the spec: encoding of one enum declaration. -/
def encEnum (e : descriptorpb.EnumDescriptorProto) : List Nat :=
  encString e.name

/-- Modelled from the spec: count-prefixed encoding of an enum list. -/
def encEnumList (l : List descriptorpb.EnumDescriptorProto) : List Nat :=
  l.length :: (l.map encEnum).flatten

/-- Modelled from the spec: decode `c` consecutive enum declarations. -/
def parseEnumCount : Nat → List Nat → Option (List descriptorpb.EnumDescriptorProto × List Nat)
  | 0, input => some ([], input)
  | c + 1, input =>
    match parseString input with
    | none => none
    | some (n, r1) =>
      match parseEnumCount c r1 with
      | none => none
      | some (es, r2) => some (⟨n⟩ :: es, r2)

mutual

/-- Modelled from the spec: encoding of one message declaration. -/
def encDesc : DescriptorProto → List Nat
  | .mk n ns es => encString n ++ (ns.length :: encDescList ns) ++ encEnumList es

/-- Modelled from the spec: concatenated encoding of a declaration list. -/
def encDescList : DescriptorProtoList → List Nat
  | .nil => []
  | .cons d ds => encDesc d ++ encDescList ds

end

mutual

/-- Modelled from the spec: decode one message declaration (fuel-bounded). -/
def parseDesc : Nat → List Nat → Option (DescriptorProto × List Nat)
  | 0, _ => none
  | fuel + 1, input =>
    match parseString input with
    | none => none
    | some (n, r1) =>
      match r1 with
      | [] => none
      | cnt :: r2 =>
        match parseDescCount fuel cnt r2 with
        | none => none
        | some (ns, r3) =>
          match r3 with
          | [] => none
          | ecnt :: r4 =>
            match parseEnumCount ecnt r4 with
            | none => none
            | some (es, r5) => some (.mk n ns es, r5)

/-- Modelled from the spec: decode `c` consecutive message declarations. -/
def parseDescCount : Nat → Nat → List Nat → Option (DescriptorProtoList × List Nat)
  | _, 0, input => some (.nil, input)
  | 0, _ + 1, _ => none
  | fuel + 1, c + 1, input =>
    match parseDesc fuel input with
    | none => none
    | some (d, r1) =>
      match parseDescCount fuel c r1 with
      | none => none
      | some (ds, r2) => some (.cons d ds, r2)

end

/-- Modelled from the spec: `proto.Marshal ∘ protodesc.ToFileDescriptorProto`,
a deterministic serialization of the root tree. -/
def protoMarshal (fd : FileDescriptorProto) : List Nat :=
  encString fd.name ++ (fd.messageType.length :: encDescList fd.messageType)
    ++ encEnumList fd.enumType

/-- Modelled from the spec: `proto.Unmarshal`, the executable partial inverse
of `protoMarshal`; `none` models an unmarshal error. -/
def protoUnmarshal (b : List Nat) : Option FileDescriptorProto :=
  match parseString b with
  | none => none
  | some (n, r1) =>
    match r1 with
    | [] => none
    | cnt :: r2 =>
      match parseDescCount r2.length cnt r2 with
      | none => none
      | some (ms, r3) =>
        match r3 with
        | [] => none
        | ecnt :: r4 =>
          match parseEnumCount ecnt r4 with
          | none => none
          | some (es, r5) => if r5.isEmpty then some ⟨n, ms, es⟩ else none

/-- Modelled from the spec: `protoimpl.X.CompressGZIP`, deterministic
compression; the two leading bytes are the gzip magic. -/
def CompressGZIP (b : List Nat) : List Nat :=
  31 :: 139 :: b

/-- Modelled from the spec: gzip decompression (`gzip.NewReader` +
`ReadAll`); `none` models a gzip format error. -/
def gunzip : List Nat → Option (List Nat)
  | 31 :: 139 :: rest => some rest
  | _ => none

/-!
## Round-trip of the serialization model
-/

mutual

/-- Structural size of one declaration, a lower bound for parser fuel. -/
def sizeD : DescriptorProto → Nat
  | .mk _ ns _ => sizeL ns + 1

/-- Structural size of a declaration list. -/
def sizeL : DescriptorProtoList → Nat
  | .nil => 0
  | .cons d ds => sizeD d + sizeL ds + 1

end

theorem parseString_encString (s : String) (r : List Nat) :
    parseString (encString s ++ r) = some (s, r) := by
  have hlen : s.toList.length = (s.toList.map Char.toNat).length :=
    (List.length_map _ _).symm
  have h1 : (s.toList.map Char.toNat ++ r).take s.toList.length
      = s.toList.map Char.toNat := by
    rw [hlen]; exact List.take_left _ _
  have h2 : (s.toList.map Char.toNat ++ r).drop s.toList.length = r := by
    rw [hlen]; exact List.drop_left _ _
  have h3 : s.toList.length ≤ (s.toList.map Char.toNat ++ r).length := by
    rw [List.length_append, ← hlen]; omega
  show parseString (s.toList.length :: (s.toList.map Char.toNat ++ r)) = some (s, r)
  rw [parseString, if_pos h3, h1, h2, List.map_map]
  have h4 : s.toList.map (Char.ofNat ∘ Char.toNat) = s.toList := by
    simp [Function.comp_def, Char.ofNat_toNat]
  rw [h4]
  cases s
  rfl

theorem parseEnumCount_encEnumList (l : List descriptorpb.EnumDescriptorProto) (r : List Nat) :
    parseEnumCount l.length ((l.map encEnum).flatten ++ r) = some (l, r) := by
  induction l generalizing r with
  | nil => simp [parseEnumCount]
  | cons e es ih =>
    simp only [List.map_cons, List.flatten_cons, List.length_cons, List.append_assoc]
    simp only [parseEnumCount, encEnum, parseString_encString, ih]

mutual

theorem sizeD_le (d : DescriptorProto) : sizeD d + 1 ≤ (encDesc d).length :=
  match d with
  | .mk n ns es => by
    have h1 := sizeL_le ns
    simp only [encDesc, sizeD, encString, encEnumList, List.length_append,
      List.length_cons]
    omega

theorem sizeL_le (ns : DescriptorProtoList) : sizeL ns ≤ (encDescList ns).length :=
  match ns with
  | .nil => by simp [sizeL, encDescList]
  | .cons d ds => by
    have h1 := sizeD_le d
    have h2 := sizeL_le ds
    simp only [sizeL, encDescList, List.length_append]
    omega

end

mutual

theorem parseDesc_encDesc (d : DescriptorProto) (r : List Nat) (fuel : Nat)
    (h : sizeD d ≤ fuel) : parseDesc fuel (encDesc d ++ r) = some (d, r) :=
  match d, fuel with
  | .mk n ns es, 0 => by
    exfalso
    simp only [sizeD] at h
    omega
  | .mk n ns es, fuel + 1 => by
    have hns : sizeL ns ≤ fuel := by
      simp only [sizeD] at h
      omega
    simp only [encDesc, List.append_assoc, List.cons_append]
    simp only [parseDesc, parseString_encString]
    simp only [parseDescCount_encDescList ns (encEnumList es ++ r) fuel hns]
    simp only [encEnumList, List.cons_append, parseEnumCount_encEnumList]

theorem parseDescCount_encDescList (ns : DescriptorProtoList) (r : List Nat) (fuel : Nat)
    (h : sizeL ns ≤ fuel) :
    parseDescCount fuel ns.length (encDescList ns ++ r) = some (ns, r) :=
  match ns, fuel with
  | .nil, fuel => by
    cases fuel <;> simp [parseDescCount, encDescList, DescriptorProtoList.length]
  | .cons d ds, 0 => by
    exfalso
    simp only [sizeL] at h
    omega
  | .cons d ds, fuel + 1 => by
    have hd : sizeD d ≤ fuel := by simp only [sizeL] at h; omega
    have hds : sizeL ds ≤ fuel := by simp only [sizeL] at h; omega
    simp only [DescriptorProtoList.length, encDescList, List.append_assoc]
    simp only [parseDescCount, parseDesc_encDesc d (encDescList ds ++ r) fuel hd]
    simp only [parseDescCount_encDescList ds r fuel hds]

end

theorem protoUnmarshal_protoMarshal (fd : FileDescriptorProto) :
    protoUnmarshal (protoMarshal fd) = some fd := by
  obtain ⟨n, ms, es⟩ := fd
  have hfuel : sizeL ms ≤ (encDescList ms ++ encEnumList es).length := by
    have h1 := sizeL_le ms
    rw [List.length_append]
    omega
  have h5 : parseEnumCount es.length (es.map encEnum).flatten = some (es, []) := by
    have h6 := parseEnumCount_encEnumList es []
    rwa [List.append_nil] at h6
  simp only [protoMarshal, List.append_assoc, List.cons_append]
  simp only [protoUnmarshal, parseString_encString]
  simp only [parseDescCount_encDescList ms (encEnumList es)
    ((encDescList ms ++ encEnumList es).length) hfuel]
  simp only [encEnumList, h5]
  simp

/-!
## Reflective descriptors

A `protoreflect.Descriptor` is modelled by its identity, its `Index()` and
its `Parent()` chain; a file node carries the root tree that
`protodesc.ToFileDescriptorProto` would produce for it.
-/

/-- A reflective descriptor node: a file descriptor, a declaration with a
parent, or a standalone declaration whose `Parent()` is nil. -/
inductive RDesc where
  | file (id : Nat) (fd : FileDescriptorProto)
  | node (id : Nat) (index : Nat) (parent : RDesc)
  | detached (id : Nat) (index : Nat)

/-- Object identity of the descriptor (the `sync.Map` key). -/
def RDesc.id : RDesc → Nat
  | .file i _ => i
  | .node i _ _ => i
  | .detached i _ => i

/-- The `Index()` of the descriptor within its parent. -/
def RDesc.index : RDesc → Nat
  | .file _ _ => 0
  | .node _ i _ => i
  | .detached _ i => i

/-- The `for` loop of `deriveRawDescriptor`: append `d.Index()`, move to the
parent; `none` when a nil parent is reached before a file node, otherwise the
file node's root tree together with the collected leaf-to-root index list. -/
def ascendLoop : RDesc → List Nat → Option (FileDescriptorProto × List Nat)
  | .file _ _, _ => none
  | .detached _ _, _ => none
  | .node _ i p, acc =>
    match p with
    | .file _ fd => some (fd, acc ++ [i])
    | .node pid pi pp => ascendLoop (.node pid pi pp) (acc ++ [i])
    | .detached _ _ => none

/-- The parent-chain ascent from this descriptor reaches a nil parent before
reaching a file node. -/
def hasNoRoot : RDesc → Bool
  | .file _ _ => true
  | .detached _ _ => true
  | .node _ _ (.file _ _) => false
  | .node _ _ (.node pid pi pp) => hasNoRoot (.node pid pi pp)
  | .node _ _ (.detached _ _) => true

/-- Build the reflective chain for the declaration addressed by the given
leaf-to-root index list, hanging below a file node for `fd`. -/
def buildChainRev (fd : FileDescriptorProto) : List Nat → RDesc
  | [] => .file 0 fd
  | i :: rest => .node 0 i (buildChainRev fd rest)

/-- Reflective descriptor of the declaration at root-to-leaf path `path`
inside `fd`. -/
def buildChain (fd : FileDescriptorProto) (path : List Nat) : RDesc :=
  buildChainRev fd path.reverse

/-!
## Outcomes and state

Fatal failures (`panic`) are modelled by `Outcome.panicked`; the two
`sync.Map` caches, the allocator for fresh byte-buffer identities, and two
instrumentation counters are threaded as explicit state.
-/

/-- Which fatal fault occurred. -/
inductive PanicKind where
  | indexOutOfRange
  | gzipInvalid
  | parseInvalid
deriving DecidableEq, Repr

/-- Result of an operation that may fail fatally. -/
inductive Outcome (α : Type) where
  | ok (a : α)
  | panicked (k : PanicKind)
deriving DecidableEq, Repr

/-- The operation failed fatally. -/
def Outcome.isPanicked : Outcome α → Bool
  | .ok _ => false
  | .panicked _ => true

/-- The `rawDesc` struct: a derived raw artifact (always non-nil when
stored). -/
structure rawDesc where
  fileDesc : Buffer
  indexes : List Nat
deriving DecidableEq, Repr

/-- Identity-keyed association list standing for a `sync.Map`. -/
def cacheLoad {α : Type} : List (Nat × α) → Nat → Option α
  | [], _ => none
  | (k2, v) :: rest, k => if k2 = k then some v else cacheLoad rest k

/-- Process-wide mutable state of the package: the two caches, a source of
fresh buffer identities, and instrumentation counters (how many times the
slow derivation path and the decompress-and-parse path ran). -/
structure DState where
  rawDescCache : List (Nat × rawDesc)
  fileDescCache : List (Nat × FileDescriptorProto)
  nextBufId : Nat
  deriveCalls : Nat
  decodeCalls : Nat

/-- State at process start: both caches empty. -/
def initState : DState :=
  { rawDescCache := [], fileDescCache := [], nextBufId := 0,
    deriveCalls := 0, decodeCalls := 0 }

/-!
## The embedded operations of `descriptor.go`
-/

/-- Function `deriveRawDescriptor`: cache lookup, parent-chain ascent, serialize and
compress the root, reverse the collected indexes, publish via
`LoadOrStore`.  Returns the `([]byte, []int)` pair (nil modelled as
`none`). -/
def deriveRawDescriptor (st : DState) (d : RDesc) :
    (Option Buffer × Option (List Nat)) × DState :=
  let st := { st with deriveCalls := st.deriveCalls + 1 }
  match cacheLoad st.rawDescCache d.id with
  | some v => ((some v.fileDesc, some v.indexes), st)
  | none =>
    match ascendLoop d [] with
    | none => ((none, none), st)
    | some (fd, idxsRev) =>
      let b := protoMarshal fd
      let file : Buffer := ⟨st.nextBufId, CompressGZIP b⟩
      let idxs := idxsRev.reverse
      let st := { st with nextBufId := st.nextBufId + 1 }
      match cacheLoad st.rawDescCache d.id with
      | some v => ((some v.fileDesc, some v.indexes), st)
      | none =>
        ((some file, some idxs),
          { st with rawDescCache := (d.id, ⟨file, idxs⟩) :: st.rawDescCache })

/-- A `proto.GeneratedEnum` value: the optional `EnumDescriptor()` fast-path
accessor and the reflective descriptor the type registry would supply. -/
structure GeneratedEnum where
  enumDescriptorMethod : Option (Option Buffer × Option (List Nat))
  desc : RDesc

/-- A `proto.GeneratedMessage` value: the optional `Descriptor()` fast-path
accessor and the reflective descriptor the type registry would supply. -/
structure GeneratedMessage where
  descriptorMethod : Option (Option Buffer × Option (List Nat))
  desc : RDesc

/-- Function `EnumRawDescriptor`: prefer the value's own `EnumDescriptor()` accessor,
otherwise derive from the reflective descriptor. -/
def EnumRawDescriptor (st : DState) (e : GeneratedEnum) :
    (Option Buffer × Option (List Nat)) × DState :=
  match e.enumDescriptorMethod with
  | some r => (r, st)
  | none => deriveRawDescriptor st e.desc

/-- Function `MessageRawDescriptor`: prefer the value's own `Descriptor()` accessor,
otherwise derive from the reflective descriptor. -/
def MessageRawDescriptor (st : DState) (m : GeneratedMessage) :
    (Option Buffer × Option (List Nat)) × DState :=
  match m.descriptorMethod with
  | some r => (r, st)
  | none => deriveRawDescriptor st m.desc

/-- Function `deriveFileDescriptor`: key the cache on `&rawDesc[0]` (a fatal
index-out-of-range fault on an empty slice), then decompress, parse and
publish via `LoadOrStore`.  Decompression or parse failures are fatal. -/
def deriveFileDescriptor (st : DState) (buf : Buffer) :
    Outcome FileDescriptorProto × DState :=
  match buf.data with
  | [] => (.panicked .indexOutOfRange, st)
  | _ :: _ =>
    match cacheLoad st.fileDescCache buf.id with
    | some fd => (.ok fd, st)
    | none =>
      let st := { st with decodeCalls := st.decodeCalls + 1 }
      match gunzip buf.data with
      | none => (.panicked .gzipInvalid, st)
      | some b =>
        match protoUnmarshal b with
        | none => (.panicked .parseInvalid, st)
        | some fd =>
          match cacheLoad st.fileDescCache buf.id with
          | some fd2 => (.ok fd2, st)
          | none =>
            (.ok fd, { st with fileDescCache := (buf.id, fd) :: st.fileDescCache })

/-- Walk a nested-message list along the given indexes (the `for` loops of
`EnumDescriptorProto` / `MessageDescriptorProto`); `none` is a fatal
index-out-of-range fault. -/
def walkNested (md : DescriptorProto) : List Nat → Option DescriptorProto
  | [] => some md
  | i :: rest =>
    match md.nestedType.get? i with
    | none => none
    | some md2 => walkNested md2 rest

/-- The navigation of `EnumDescriptorProto`: one index selects a top-level
enum; otherwise descend messages and take an enum of the last one. -/
def navEnum (fd : FileDescriptorProto) : List Nat → Option descriptorpb.EnumDescriptorProto
  | [] => none
  | [i] => fd.enumType.get? i
  | i :: j :: rest =>
    match fd.messageType.get? i with
    | none => none
    | some md =>
      match walkNested md (j :: rest).dropLast with
      | none => none
      | some md2 => md2.enumType.get? ((j :: rest).getLast (List.cons_ne_nil j rest))

/-- The navigation of `MessageDescriptorProto`: the first index selects a
top-level message, the rest descend nested messages. -/
def navMessage (fd : FileDescriptorProto) : List Nat → Option DescriptorProto
  | [] => none
  | i :: rest =>
    match fd.messageType.get? i with
    | none => none
    | some md => walkNested md rest

/-- Function `EnumDescriptorProto` (the operation): raw artifact, nil-sentinel guard,
decode, navigate. -/
def EnumDescriptorProto (st : DState) (e : GeneratedEnum) :
    Outcome (Option FileDescriptorProto × Option descriptorpb.EnumDescriptorProto)
      × DState :=
  match EnumRawDescriptor st e with
  | ((rd, idxsO), st1) =>
    match rd, idxsO with
    | none, _ => (.ok (none, none), st1)
    | some _, none => (.ok (none, none), st1)
    | some buf, some idxs =>
      match deriveFileDescriptor st1 buf with
      | (.panicked k, st2) => (.panicked k, st2)
      | (.ok fd, st2) =>
        match navEnum fd idxs with
        | none => (.panicked .indexOutOfRange, st2)
        | some ed => (.ok (some fd, some ed), st2)

/-- Function `MessageDescriptorProto` (the operation): raw artifact, nil-sentinel
guard, decode, navigate. -/
def MessageDescriptorProto (st : DState) (m : GeneratedMessage) :
    Outcome (Option FileDescriptorProto × Option DescriptorProto) × DState :=
  match MessageRawDescriptor st m with
  | ((rd, idxsO), st1) =>
    match rd, idxsO with
    | none, _ => (.ok (none, none), st1)
    | some _, none => (.ok (none, none), st1)
    | some buf, some idxs =>
      match deriveFileDescriptor st1 buf with
      | (.panicked k, st2) => (.panicked k, st2)
      | (.ok fd, st2) =>
        match navMessage fd idxs with
        | none => (.panicked .indexOutOfRange, st2)
        | some md => (.ok (some fd, some md), st2)

/-- Function `ForMessage`, the deprecated entry point: delegates to
`MessageDescriptorProto`. -/
def ForMessage (st : DState) (m : GeneratedMessage) :
    Outcome (Option FileDescriptorProto × Option DescriptorProto) × DState :=
  MessageDescriptorProto st m

/-!
## Spec-worded navigator (for the refinement claim about navigation)
-/

/-- Spec's words: each intermediate index descends into the current message's
nested-message list. -/
def descendNested (md : DescriptorProto) (is : List Nat) : Option DescriptorProto :=
  is.foldl (fun acc i => acc.bind fun m => m.nestedType.get? i) (some md)

/-- Spec's words: for a path of length 1 the single index selects a top-level
message; for longer paths the first index selects a top-level message, each
intermediate index descends the nested-message list, and the final index
selects a nested message within the last message reached. -/
def locateMessageSpec (fd : FileDescriptorProto) : List Nat → Option DescriptorProto
  | [] => none
  | [i] => fd.messageType.get? i
  | i :: j :: rest =>
    (fd.messageType.get? i).bind fun md =>
    (descendNested md ((j :: rest).dropLast)).bind fun md2 =>
    ((j :: rest).getLast?).bind fun fin => md2.nestedType.get? fin

/-- Spec's words: for a path of length 1 the single index selects a top-level
enum; for longer paths the final index selects a nested enum within the last
message reached. -/
def locateEnumSpec (fd : FileDescriptorProto) : List Nat → Option descriptorpb.EnumDescriptorProto
  | [] => none
  | [i] => fd.enumType.get? i
  | i :: j :: rest =>
    (fd.messageType.get? i).bind fun md =>
    (descendNested md ((j :: rest).dropLast)).bind fun md2 =>
    ((j :: rest).getLast?).bind fun fin => md2.enumType.get? fin

/-!
## Helper lemmas
-/

theorem ascendLoop_none_of_hasNoRoot (d : RDesc) :
    ∀ acc, hasNoRoot d = true → ascendLoop d acc = none := by
  induction d with
  | file i fd => intro acc _; rfl
  | detached i ix => intro acc _; rfl
  | node i ix p ih =>
    intro acc h
    cases p with
    | file pid pfd => simp [hasNoRoot] at h
    | node pid pix pp =>
      show ascendLoop (.node pid pix pp) (acc ++ [ix]) = none
      exact ih _ (by simpa [hasNoRoot] using h)
    | detached pid pix => rfl

theorem ascendLoop_buildChainRev (fd : FileDescriptorProto) :
    ∀ l acc, l ≠ [] → ascendLoop (buildChainRev fd l) acc = some (fd, acc ++ l)
  | [], _, h => absurd rfl h
  | [i], acc, _ => rfl
  | i :: j :: rest, acc, _ => by
    have ih := ascendLoop_buildChainRev fd (j :: rest) (acc ++ [i])
      (List.cons_ne_nil _ _)
    calc ascendLoop (buildChainRev fd (i :: j :: rest)) acc
        = ascendLoop (buildChainRev fd (j :: rest)) (acc ++ [i]) := rfl
      _ = some (fd, acc ++ [i] ++ (j :: rest)) := ih
      _ = some (fd, acc ++ (i :: j :: rest)) := by simp

theorem deriveRawDescriptor_hit (st : DState) (d : RDesc) (v : rawDesc)
    (h : cacheLoad st.rawDescCache d.id = some v) :
    deriveRawDescriptor st d
      = ((some v.fileDesc, some v.indexes),
         { st with deriveCalls := st.deriveCalls + 1 }) := by
  simp [deriveRawDescriptor, h]

theorem deriveRawDescriptor_noRoot (st : DState) (d : RDesc)
    (hfresh : cacheLoad st.rawDescCache d.id = none)
    (h : hasNoRoot d = true) :
    deriveRawDescriptor st d
      = ((none, none), { st with deriveCalls := st.deriveCalls + 1 }) := by
  simp [deriveRawDescriptor, hfresh, ascendLoop_none_of_hasNoRoot d [] h]

theorem deriveRawDescriptor_slow (st : DState) (d : RDesc)
    (fd : FileDescriptorProto) (lrev : List Nat)
    (hfresh : cacheLoad st.rawDescCache d.id = none)
    (hasc : ascendLoop d [] = some (fd, lrev)) :
    deriveRawDescriptor st d
      = ((some ⟨st.nextBufId, CompressGZIP (protoMarshal fd)⟩, some lrev.reverse),
         { st with
             deriveCalls := st.deriveCalls + 1,
             nextBufId := st.nextBufId + 1,
             rawDescCache :=
               (d.id, ⟨⟨st.nextBufId, CompressGZIP (protoMarshal fd)⟩, lrev.reverse⟩)
                 :: st.rawDescCache }) := by
  simp [deriveRawDescriptor, hfresh, hasc]

theorem deriveFileDescriptor_hit (st : DState) (buf : Buffer)
    (x : Nat) (xs : List Nat) (fd : FileDescriptorProto)
    (hdata : buf.data = x :: xs)
    (h : cacheLoad st.fileDescCache buf.id = some fd) :
    deriveFileDescriptor st buf = (.ok fd, st) := by
  simp [deriveFileDescriptor, hdata, h]

theorem deriveFileDescriptor_slow (st : DState) (buf : Buffer)
    (x : Nat) (xs : List Nat) (b : List Nat) (fd : FileDescriptorProto)
    (hdata : buf.data = x :: xs)
    (hfresh : cacheLoad st.fileDescCache buf.id = none)
    (hz : gunzip buf.data = some b)
    (hu : protoUnmarshal b = some fd) :
    deriveFileDescriptor st buf
      = (.ok fd,
         { st with
             decodeCalls := st.decodeCalls + 1,
             fileDescCache := (buf.id, fd) :: st.fileDescCache }) := by
  simp [deriveFileDescriptor, hdata, hfresh, hz, hu]
  rw [← hdata, hz]
  simp [hu, hfresh]

theorem foldl_descend_none (is : List Nat) :
    is.foldl (fun acc i => acc.bind fun m => m.nestedType.get? i)
      (none : Option DescriptorProto) = none := by
  induction is with
  | nil => rfl
  | cons i rest ih => simpa using ih

theorem walkNested_eq_descendNested (is : List Nat) :
    ∀ md, walkNested md is = descendNested md is := by
  induction is with
  | nil => intro md; rfl
  | cons i rest ih =>
    intro md
    show (match md.nestedType.get? i with
      | none => none
      | some md2 => walkNested md2 rest)
      = rest.foldl (fun acc i => acc.bind fun m => m.nestedType.get? i)
          ((some md).bind fun m => m.nestedType.get? i)
    cases h : md.nestedType.get? i with
    | none => simp [h, foldl_descend_none]
    | some md2 => simp [h, ih md2, descendNested]

theorem walkNested_append (l : List Nat) (x : Nat) :
    ∀ md, walkNested md (l ++ [x])
      = (walkNested md l).bind fun m => m.nestedType.get? x := by
  induction l with
  | nil =>
    intro md
    show walkNested md [x] = md.nestedType.get? x
    simp only [walkNested]
    cases md.nestedType.get? x <;> rfl
  | cons i rest ih =>
    intro md
    show (match md.nestedType.get? i with
      | none => none
      | some md2 => walkNested md2 (rest ++ [x]))
      = (match md.nestedType.get? i with
        | none => none
        | some md2 => walkNested md2 rest).bind fun m => m.nestedType.get? x
    cases h : md.nestedType.get? i with
    | none => rfl
    | some md2 => simpa using ih md2

theorem walk_decomp (md : DescriptorProto) (l : List Nat) (h : l ≠ []) :
    walkNested md l
      = (descendNested md l.dropLast).bind fun m => m.nestedType.get? (l.getLast h) := by
  conv_lhs => rw [← List.dropLast_append_getLast h]
  rw [walkNested_append, walkNested_eq_descendNested]

theorem navMessage_eq_locateMessageSpec (fd : FileDescriptorProto) (p : List Nat) :
    navMessage fd p = locateMessageSpec fd p := by
  match p with
  | [] => rfl
  | [i] =>
    show (match fd.messageType.get? i with
      | none => none
      | some md => walkNested md []) = fd.messageType.get? i
    cases fd.messageType.get? i <;> rfl
  | i :: j :: rest =>
    show (match fd.messageType.get? i with
      | none => none
      | some md => walkNested md (j :: rest)) = _
    have hlast := List.getLast?_eq_getLast (j :: rest) (List.cons_ne_nil j rest)
    cases hm : fd.messageType.get? i with
    | none => simp [locateMessageSpec, hm]
    | some md =>
      simp only [walk_decomp md (j :: rest) (List.cons_ne_nil j rest)]
      simp [locateMessageSpec, hm, hlast]

theorem navEnum_eq_locateEnumSpec (fd : FileDescriptorProto) (p : List Nat) :
    navEnum fd p = locateEnumSpec fd p := by
  match p with
  | [] => rfl
  | [i] => rfl
  | i :: j :: rest =>
    show (match fd.messageType.get? i with
      | none => none
      | some md =>
        match walkNested md ((j :: rest).dropLast) with
        | none => none
        | some md2 =>
          md2.enumType.get? ((j :: rest).getLast (List.cons_ne_nil j rest))) = _
    have hlast := List.getLast?_eq_getLast (j :: rest) (List.cons_ne_nil j rest)
    cases hm : fd.messageType.get? i with
    | none => simp [locateEnumSpec, hm]
    | some md =>
      cases hw : descendNested md ((j :: rest).dropLast) with
      | none => simp [locateEnumSpec, hm, walkNested_eq_descendNested, hw]
      | some md2 => simp [locateEnumSpec, hm, walkNested_eq_descendNested, hw, hlast]

/-!
## Sample data for witnesses
-/

/-- A nested message `Bar` with one nested enum `E2`. -/
def sampleBar : DescriptorProto := .mk "Bar" .nil [⟨"E2"⟩]

/-- A top-level message `Foo` whose first nested message is `Bar`. -/
def sampleFoo : DescriptorProto := .mk "Foo" (.cons sampleBar .nil) [⟨"E1"⟩]

/-- A root tree with one top-level message and one top-level enum. -/
def sampleFd : FileDescriptorProto :=
  ⟨"test.proto", .cons sampleFoo .nil, [⟨"TopEnum"⟩]⟩

/-!
## Claims
-/

/-- C1: for every descriptor whose parent-chain ascent reaches a nil parent
before reaching a file node, `deriveRawDescriptor` returns the sentinel pair
`(nil, nil)`, and every public operation built on it (`EnumRawDescriptor`,
`MessageRawDescriptor`, `EnumDescriptorProto`, `MessageDescriptorProto`)
returns the empty/absent sentinel pair rather than failing fatally. -/
theorem c1_no_root_sentinel (st : DState) (d : RDesc)
    (hfresh : cacheLoad st.rawDescCache d.id = none)
    (h : hasNoRoot d = true) :
    (deriveRawDescriptor st d).1 = (none, none)
    ∧ (EnumRawDescriptor st ⟨none, d⟩).1 = (none, none)
    ∧ (MessageRawDescriptor st ⟨none, d⟩).1 = (none, none)
    ∧ (EnumDescriptorProto st ⟨none, d⟩).1 = .ok (none, none)
    ∧ (MessageDescriptorProto st ⟨none, d⟩).1 = .ok (none, none) := by
  have hd := deriveRawDescriptor_noRoot st d hfresh h
  refine ⟨by rw [hd], ?_, ?_, ?_, ?_⟩
  · simp [EnumRawDescriptor, hd]
  · simp [MessageRawDescriptor, hd]
  · simp [EnumDescriptorProto, EnumRawDescriptor, hd]
  · simp [MessageDescriptorProto, MessageRawDescriptor, hd]

theorem c1_witness :
    cacheLoad initState.rawDescCache (RDesc.detached 0 0).id = none
    ∧ hasNoRoot (RDesc.detached 0 0) = true
    ∧ (EnumDescriptorProto initState ⟨none, RDesc.detached 0 0⟩).1 = .ok (none, none)
    ∧ (MessageDescriptorProto initState ⟨none, RDesc.detached 0 0⟩).1
        = .ok (none, none) :=
  ⟨rfl, rfl,
    (c1_no_root_sentinel initState (RDesc.detached 0 0) rfl rfl).2.2.2.1,
    (c1_no_root_sentinel initState (RDesc.detached 0 0) rfl rfl).2.2.2.2⟩

/-- C2: the code's navigation agrees with the spec's scheme: a length-1 path
selects among the root's top-level declarations of the target kind; a longer
path selects a top-level message with its first index, descends the
nested-message list with each intermediate index, and selects a nested
message or nested enum with its final index. -/
theorem c2_navigation_scheme (fd : FileDescriptorProto) (p : List Nat) :
    navMessage fd p = locateMessageSpec fd p
    ∧ navEnum fd p = locateEnumSpec fd p :=
  ⟨navMessage_eq_locateMessageSpec fd p, navEnum_eq_locateEnumSpec fd p⟩

/-- C3: for every descriptor with a reachable root file, the index path
returned by `deriveRawDescriptor` is the leaf-to-root sequence of `Index()`
values reversed into root-to-leaf order; in particular a first-declared
top-level message yields `[0]` and its first nested message yields
`[0, 0]`. -/
theorem c3_path_reversal (st : DState) (d : RDesc) (fd : FileDescriptorProto)
    (lrev : List Nat)
    (hfresh : cacheLoad st.rawDescCache d.id = none)
    (hasc : ascendLoop d [] = some (fd, lrev)) :
    (deriveRawDescriptor st d).1.2 = some lrev.reverse
    ∧ (∀ (fd2 : FileDescriptorProto) (st2 : DState),
        cacheLoad st2.rawDescCache 1 = none →
        (deriveRawDescriptor st2 (RDesc.node 1 0 (.file 0 fd2))).1.2 = some [0])
    ∧ (∀ (fd2 : FileDescriptorProto) (st2 : DState),
        cacheLoad st2.rawDescCache 2 = none →
        (deriveRawDescriptor st2
          (RDesc.node 2 0 (.node 1 0 (.file 0 fd2)))).1.2 = some [0, 0]) := by
  refine ⟨?_, ?_, ?_⟩
  · rw [deriveRawDescriptor_slow st d fd lrev hfresh hasc]
  · intro fd2 st2 h2
    rw [deriveRawDescriptor_slow st2 (RDesc.node 1 0 (.file 0 fd2)) fd2 [0] h2 rfl]
    rfl
  · intro fd2 st2 h2
    rw [deriveRawDescriptor_slow st2
      (RDesc.node 2 0 (.node 1 0 (.file 0 fd2))) fd2 [0, 0] h2 rfl]
    rfl

theorem c3_witness :
    ascendLoop (buildChain sampleFd [0, 1]) [] = some (sampleFd, [1, 0])
    ∧ (deriveRawDescriptor initState (buildChain sampleFd [0, 1])).1.2
        = some [0, 1] :=
  ⟨rfl,
    (c3_path_reversal initState (buildChain sampleFd [0, 1]) sampleFd [1, 0]
      rfl rfl).1⟩

/-- C4: a value that implements its own legacy-artifact accessor gets exactly
that accessor's output from `EnumRawDescriptor` / `MessageRawDescriptor`, and
the derivation path is never invoked (the state, including caches and the
derivation counter, is untouched). -/
theorem c4_fast_path (st : DState) (e : GeneratedEnum) (m : GeneratedMessage)
    (re rm : Option Buffer × Option (List Nat))
    (he : e.enumDescriptorMethod = some re)
    (hm : m.descriptorMethod = some rm) :
    EnumRawDescriptor st e = (re, st) ∧ MessageRawDescriptor st m = (rm, st) := by
  constructor
  · simp [EnumRawDescriptor, he]
  · simp [MessageRawDescriptor, hm]

theorem c4_witness :
    (GeneratedEnum.mk (some (some ⟨7, [1, 2]⟩, some [3])) (RDesc.detached 0 0)
        |>.enumDescriptorMethod) = some (some ⟨7, [1, 2]⟩, some [3])
    ∧ EnumRawDescriptor initState
        ⟨some (some ⟨7, [1, 2]⟩, some [3]), RDesc.detached 0 0⟩
        = ((some ⟨7, [1, 2]⟩, some [3]), initState) :=
  ⟨rfl,
    (c4_fast_path initState
      ⟨some (some ⟨7, [1, 2]⟩, some [3]), RDesc.detached 0 0⟩
      ⟨some (some ⟨7, [1, 2]⟩, some [3]), RDesc.detached 0 0⟩
      (some ⟨7, [1, 2]⟩, some [3]) (some ⟨7, [1, 2]⟩, some [3]) rfl rfl).1⟩

/-- C5: for a fixed descriptor with a reachable root, derivation is
deterministic (byte-identical compressed content and identical index paths
from any two fresh derivations), and once a value is published in the
raw-descriptor cache for that descriptor identity, every subsequent call
returns that same cached value. -/
theorem c5_determinism_and_cache :
    (∀ (st1 st2 : DState) (d : RDesc),
        cacheLoad st1.rawDescCache d.id = none →
        cacheLoad st2.rawDescCache d.id = none →
        Option.map Buffer.data (deriveRawDescriptor st1 d).1.1
            = Option.map Buffer.data (deriveRawDescriptor st2 d).1.1
          ∧ (deriveRawDescriptor st1 d).1.2 = (deriveRawDescriptor st2 d).1.2)
    ∧ (∀ (st : DState) (d : RDesc) (v : rawDesc),
        cacheLoad st.rawDescCache d.id = some v →
        (deriveRawDescriptor st d).1 = (some v.fileDesc, some v.indexes))
    ∧ (∀ (st : DState) (d : RDesc),
        cacheLoad st.rawDescCache d.id = none →
        ∀ v, cacheLoad (deriveRawDescriptor st d).2.rawDescCache d.id = some v →
          (deriveRawDescriptor (deriveRawDescriptor st d).2 d).1
              = (some v.fileDesc, some v.indexes)
            ∧ (deriveRawDescriptor st d).1 = (some v.fileDesc, some v.indexes)) := by
  refine ⟨?_, ?_, ?_⟩
  · intro st1 st2 d h1 h2
    cases hasc : ascendLoop d [] with
    | none => simp [deriveRawDescriptor, h1, h2, hasc]
    | some pr =>
      obtain ⟨fd, lrev⟩ := pr
      rw [deriveRawDescriptor_slow st1 d fd lrev h1 hasc,
        deriveRawDescriptor_slow st2 d fd lrev h2 hasc]
      exact ⟨rfl, rfl⟩
  · intro st d v h
    rw [deriveRawDescriptor_hit st d v h]
  · intro st d hfresh v hv
    cases hasc : ascendLoop d [] with
    | none => simp [deriveRawDescriptor, hfresh, hasc] at hv
    | some pr =>
      obtain ⟨fd, lrev⟩ := pr
      have hs := deriveRawDescriptor_slow st d fd lrev hfresh hasc
      rw [hs] at hv ⊢
      have hv2 : some (⟨⟨st.nextBufId, CompressGZIP (protoMarshal fd)⟩,
          lrev.reverse⟩ : rawDesc) = some v := by
        simpa [cacheLoad] using hv
      injection hv2 with h3
      subst h3
      constructor
      · rw [deriveRawDescriptor_hit _ d
          ⟨⟨st.nextBufId, CompressGZIP (protoMarshal fd)⟩, lrev.reverse⟩
          (by simp [cacheLoad])]
      · rfl

theorem c5_witness :
    cacheLoad initState.rawDescCache (buildChain sampleFd [0]).id = none
    ∧ (∀ v, cacheLoad
          (deriveRawDescriptor initState (buildChain sampleFd [0])).2.rawDescCache
          (buildChain sampleFd [0]).id = some v →
        (deriveRawDescriptor
            (deriveRawDescriptor initState (buildChain sampleFd [0])).2
            (buildChain sampleFd [0])).1
          = (some v.fileDesc, some v.indexes)) :=
  ⟨rfl, fun v hv =>
    (c5_determinism_and_cache.2.2 initState (buildChain sampleFd [0]) rfl v hv).1⟩

/-- C6: byte input that is not validly GZIP-compressed, or whose decompressed
content does not parse as a root tree, makes `deriveFileDescriptor` fail
fatally rather than return a recoverable error or sentinel. -/
theorem c6_decode_failure_fatal (st : DState) (buf : Buffer)
    (hfresh : cacheLoad st.fileDescCache buf.id = none)
    (hbad : gunzip buf.data = none
      ∨ ∃ b, gunzip buf.data = some b ∧ protoUnmarshal b = none) :
    (deriveFileDescriptor st buf).1.isPanicked = true := by
  cases hd : buf.data with
  | nil => simp [deriveFileDescriptor, hd, Outcome.isPanicked]
  | cons x xs =>
    rcases hbad with hz | ⟨b, hz, hu⟩
    · rw [hd] at hz
      simp [deriveFileDescriptor, hd, hfresh, hz, Outcome.isPanicked]
    · rw [hd] at hz
      simp [deriveFileDescriptor, hd, hfresh, hz, hu, Outcome.isPanicked]

theorem c6_witness :
    cacheLoad initState.fileDescCache (Buffer.mk 0 [7]).id = none
    ∧ gunzip (Buffer.mk 0 [7]).data = none
    ∧ (deriveFileDescriptor initState ⟨0, [7]⟩).1.isPanicked = true :=
  ⟨rfl, rfl, c6_decode_failure_fatal initState ⟨0, [7]⟩ rfl (Or.inl rfl)⟩

theorem derive_buildChain (fd : FileDescriptorProto) (path : List Nat)
    (hne : path ≠ []) :
    deriveRawDescriptor initState (buildChain fd path)
      = ((some ⟨0, CompressGZIP (protoMarshal fd)⟩, some path),
         { rawDescCache := [((buildChain fd path).id,
             ⟨⟨0, CompressGZIP (protoMarshal fd)⟩, path⟩)],
           fileDescCache := [], nextBufId := 1, deriveCalls := 1,
           decodeCalls := 0 }) := by
  have hne2 : path.reverse ≠ [] := by simpa using hne
  have hasc : ascendLoop (buildChain fd path) [] = some (fd, path.reverse) := by
    rw [buildChain]
    simpa using ascendLoop_buildChainRev fd path.reverse [] hne2
  have hs := deriveRawDescriptor_slow initState (buildChain fd path) fd
    path.reverse rfl hasc
  simpa [initState, List.reverse_reverse] using hs

/-- C7: serializing and compressing the root (`deriveRawDescriptor`), then
decompressing and parsing (`deriveFileDescriptor`), then navigating the
recorded index path yields exactly the original declaration, for every
message or enum reachable from the root tree. -/
theorem c7_round_trip (fd : FileDescriptorProto) (path : List Nat) :
    (∀ md, navMessage fd path = some md →
        (MessageDescriptorProto initState ⟨none, buildChain fd path⟩).1
          = .ok (some fd, some md))
    ∧ (∀ ed, navEnum fd path = some ed →
        (EnumDescriptorProto initState ⟨none, buildChain fd path⟩).1
          = .ok (some fd, some ed)) := by
  have hgz : gunzip (CompressGZIP (protoMarshal fd)) = some (protoMarshal fd) := rfl
  constructor
  · intro md hmd
    have hne : path ≠ [] := by
      intro h
      subst h
      simp [navMessage] at hmd
    have hD := derive_buildChain fd path hne
    have hF := deriveFileDescriptor_slow
      { rawDescCache := [((buildChain fd path).id,
          ⟨⟨0, CompressGZIP (protoMarshal fd)⟩, path⟩)],
        fileDescCache := [], nextBufId := 1, deriveCalls := 1, decodeCalls := 0 }
      ⟨0, CompressGZIP (protoMarshal fd)⟩ 31 (139 :: protoMarshal fd)
      (protoMarshal fd) fd rfl rfl hgz (protoUnmarshal_protoMarshal fd)
    simp only [MessageDescriptorProto, MessageRawDescriptor, hD, hF, hmd]
  · intro ed hed
    have hne : path ≠ [] := by
      intro h
      subst h
      simp [navEnum] at hed
    have hD := derive_buildChain fd path hne
    have hF := deriveFileDescriptor_slow
      { rawDescCache := [((buildChain fd path).id,
          ⟨⟨0, CompressGZIP (protoMarshal fd)⟩, path⟩)],
        fileDescCache := [], nextBufId := 1, deriveCalls := 1, decodeCalls := 0 }
      ⟨0, CompressGZIP (protoMarshal fd)⟩ 31 (139 :: protoMarshal fd)
      (protoMarshal fd) fd rfl rfl hgz (protoUnmarshal_protoMarshal fd)
    simp only [EnumDescriptorProto, EnumRawDescriptor, hD, hF, hed]

theorem c7_witness :
    navMessage sampleFd [0, 0] = some sampleBar
    ∧ navEnum sampleFd [0, 0, 0] = some ⟨"E2"⟩
    ∧ (MessageDescriptorProto initState ⟨none, buildChain sampleFd [0, 0]⟩).1
        = .ok (some sampleFd, some sampleBar)
    ∧ (EnumDescriptorProto initState ⟨none, buildChain sampleFd [0, 0, 0]⟩).1
        = .ok (some sampleFd, some ⟨"E2"⟩) :=
  ⟨rfl, rfl, (c7_round_trip sampleFd [0, 0]).1 sampleBar rfl,
    (c7_round_trip sampleFd [0, 0, 0]).2 ⟨"E2"⟩ rfl⟩

/-- C8: the file-tree cache is keyed by byte-buffer identity, not content:
a second call with the same buffer instance hits the cache (same tree, no
second decode), while a distinct buffer with equal content misses the cache
and is decoded independently. -/
theorem c8_identity_keyed_cache (st : DState) (b1 : Buffer)
    (f1 : FileDescriptorProto) (st1 : DState)
    (hfresh : cacheLoad st.fileDescCache b1.id = none)
    (hcall : deriveFileDescriptor st b1 = (.ok f1, st1)) :
    deriveFileDescriptor st1 b1 = (.ok f1, st1)
    ∧ st1.decodeCalls = st.decodeCalls + 1
    ∧ (∀ b2 : Buffer, b2.id ≠ b1.id →
        cacheLoad st.fileDescCache b2.id = none → b2.data = b1.data →
        (deriveFileDescriptor st1 b2).2.decodeCalls = st1.decodeCalls + 1) := by
  cases hd : b1.data with
  | nil => simp [deriveFileDescriptor, hd] at hcall
  | cons x xs =>
    cases hz : gunzip b1.data with
    | none =>
      rw [hd] at hz
      simp [deriveFileDescriptor, hd, hfresh, hz] at hcall
    | some b =>
      cases hu : protoUnmarshal b with
      | none =>
        rw [hd] at hz
        simp [deriveFileDescriptor, hd, hfresh, hz, hu] at hcall
      | some fd =>
        have hslow := deriveFileDescriptor_slow st b1 x xs b fd hd hfresh hz hu
        rw [hslow] at hcall
        injection hcall with h1 h2
        injection h1 with h1
        subst h1
        subst h2
        refine ⟨?_, rfl, ?_⟩
        · exact deriveFileDescriptor_hit _ b1 x xs fd hd (by simp [cacheLoad])
        · intro b2 hne hfresh2 hdata2
          rw [hd] at hz
          have hd2 : b2.data = x :: xs := hdata2
          have hfresh21 : cacheLoad ((b1.id, fd) :: st.fileDescCache) b2.id
              = none := by
            rw [cacheLoad, if_neg (fun hh => hne hh.symm)]
            exact hfresh2
          have hz2 : gunzip b2.data = some b := by rw [hdata2]; exact hz
          have hslow2 := deriveFileDescriptor_slow
            { st with
                decodeCalls := st.decodeCalls + 1,
                fileDescCache := (b1.id, fd) :: st.fileDescCache }
            b2 x xs b fd hd2 hfresh21 hz2 hu
          rw [hslow2]

/-- Byte blob produced for `sampleFd`, identity 3. -/
def sampleBuf3 : Buffer := ⟨3, CompressGZIP (protoMarshal sampleFd)⟩

/-- A distinct blob with the same content as `sampleBuf3`, identity 4. -/
def sampleBuf4 : Buffer := ⟨4, CompressGZIP (protoMarshal sampleFd)⟩

theorem c8_witness :
    cacheLoad initState.fileDescCache sampleBuf3.id = none
    ∧ deriveFileDescriptor (deriveFileDescriptor initState sampleBuf3).2 sampleBuf3
        = (.ok sampleFd, (deriveFileDescriptor initState sampleBuf3).2)
    ∧ (deriveFileDescriptor initState sampleBuf3).2.decodeCalls
        = initState.decodeCalls + 1
    ∧ (deriveFileDescriptor (deriveFileDescriptor initState sampleBuf3).2
          sampleBuf4).2.decodeCalls
        = (deriveFileDescriptor initState sampleBuf3).2.decodeCalls + 1 := by
  have hfirst0 := deriveFileDescriptor_slow initState sampleBuf3 31
    (139 :: protoMarshal sampleFd) (protoMarshal sampleFd) sampleFd rfl rfl rfl
    (protoUnmarshal_protoMarshal sampleFd)
  have hfirst : deriveFileDescriptor initState sampleBuf3
      = (.ok sampleFd, (deriveFileDescriptor initState sampleBuf3).2) := by
    rw [hfirst0]
  have h := c8_identity_keyed_cache initState sampleBuf3 sampleFd
    (deriveFileDescriptor initState sampleBuf3).2 rfl hfirst
  exact ⟨rfl, h.1, h.2.1, h.2.2 sampleBuf4 (by decide) rfl rfl⟩

/-- C9: the deprecated entry point `ForMessage` is extensionally equal to
`MessageDescriptorProto`: it returns exactly the same pair on every message
value and state. -/
theorem c9_forMessage_delegates (st : DState) (m : GeneratedMessage) :
    ForMessage st m = MessageDescriptorProto st m := rfl

/-- C10: a fast-path accessor returning a non-nil but empty byte slice (with
a non-nil index path) makes `EnumDescriptorProto` / `MessageDescriptorProto`
panic with an index-out-of-range fault when forming the cache key from the
buffer's first byte, before any decompression is attempted: the nil-sentinel
guard covers only nil slices, not empty ones. -/
theorem c10_empty_slice_panics (st : DState) (e : GeneratedEnum)
    (m : GeneratedMessage) (bufE bufM : Buffer) (idxsE idxsM : List Nat)
    (he : e.enumDescriptorMethod = some (some bufE, some idxsE))
    (hmm : m.descriptorMethod = some (some bufM, some idxsM))
    (hbe : bufE.data = []) (hbm : bufM.data = []) :
    (EnumDescriptorProto st e).1 = .panicked .indexOutOfRange
    ∧ (MessageDescriptorProto st m).1 = .panicked .indexOutOfRange
    ∧ (EnumDescriptorProto st e).2.decodeCalls = st.decodeCalls
    ∧ (MessageDescriptorProto st m).2.decodeCalls = st.decodeCalls := by
  refine ⟨?_, ?_, ?_, ?_⟩ <;>
    simp [EnumDescriptorProto, MessageDescriptorProto, EnumRawDescriptor,
      MessageRawDescriptor, he, hmm, deriveFileDescriptor, hbe, hbm]

theorem c10_witness :
    (GeneratedEnum.mk (some (some ⟨9, []⟩, some [0])) (RDesc.detached 0 0)
        |>.enumDescriptorMethod) = some (some ⟨9, []⟩, some [0])
    ∧ (Buffer.mk 9 []).data = []
    ∧ (EnumDescriptorProto initState
          ⟨some (some ⟨9, []⟩, some [0]), RDesc.detached 0 0⟩).1
        = .panicked .indexOutOfRange :=
  ⟨rfl, rfl,
    (c10_empty_slice_panics initState
      ⟨some (some ⟨9, []⟩, some [0]), RDesc.detached 0 0⟩
      ⟨some (some ⟨9, []⟩, some [0]), RDesc.detached 0 0⟩
      ⟨9, []⟩ ⟨9, []⟩ [0] [0] rfl rfl rfl rfl).1⟩
